import Mathlib

/-!
Shallow embedding of the nextjs-brand module (src/index.ts) and proofs of
its specified properties.

JavaScript strings are modelled as lists of characters (`JStr`), so that
the splitting performed by the translation helper and the cookie reader
is fully computable and provable. Translation dictionaries are modelled
by the inductive `JVal` (null, string leaves, nested objects as ordered
key/value lists, plus the numbers and opaque host objects that JS string
property access can produce). The ambient browser cookie store is an
ordered list of
name/value pairs under an `Option` whose `none` models an execution
environment with no `document`. The aggregate `CONFIG` object is an
ordered key/value object so that custom-config shadowing is observable.
-/

set_option autoImplicit false

namespace NextjsBrand

/-- Model of a JavaScript string: its list of characters. -/
abbrev JStr := List Char

/-- Model of JS `s.split(c)` for a single-character separator `c`:
`"".split(c)` is `[""]`, a trailing separator yields a trailing `""`. -/
def splitChar (c : Char) : JStr → List JStr
  | [] => [[]]
  | x :: xs =>
    if x = c then [] :: splitChar c xs
    else
      match splitChar c xs with
      | [] => [[x]]
      | h :: t => (x :: h) :: t

/-- Model of JS `s.split("; ")` (the separator used by `getLocaleCookie`):
scan left to right for the first occurrence of the two-character
separator, consume it, continue. -/
def splitSemiSpace : JStr → List JStr
  | [] => [[]]
  | [x] => [[x]]
  | x :: y :: xs =>
    if x = ';' ∧ y = ' ' then [] :: splitSemiSpace xs
    else
      match splitSemiSpace (y :: xs) with
      | [] => [[x]]
      | h :: t => (x :: h) :: t

/-- Join a list of strings with a separator (inverse of splitting; used
to model the `document.cookie` getter's `"n1=v1; n2=v2"` format). -/
def joinSeq (sep : JStr) : List JStr → JStr
  | [] => []
  | [p] => p
  | p :: q :: r => p ++ sep ++ joinSeq sep (q :: r)

/-- Model of the JS values the translation traversal can encounter:
JS `null`, string leaves, nested objects (ordered key/value lists), the
natural numbers that string property access produces (`length`), and
opaque host objects (built-in prototype members such as methods,
identified by the property name that reached them). -/
inductive JVal where
  | vnull : JVal
  | vstr : JStr → JVal
  | vnum : Nat → JVal
  | vhost : JStr → JVal
  | vdict : List (JStr × JVal) → JVal
deriving Repr

/-- Model of JS property access `d[k]` on an object represented as an
ordered key/value list: the first binding of `k`, `undefined` (`none`)
when absent. -/
def lookupAssoc : List (JStr × JVal) → JStr → Option JVal
  | [], _ => none
  | (k, v) :: rest, s => if k = s then some v else lookupAssoc rest s

/-- JS truthiness for the values occurring in the translation map:
null, the empty string and zero are falsy; any other string or number,
any host object and any object (including the empty object) are truthy. -/
def truthy : JVal → Bool
  | .vnull => false
  | .vstr s => !s.isEmpty
  | .vnum n => n != 0
  | .vhost _ => true
  | .vdict _ => true

/-- Model of JS `a || b` where `a` may be `undefined` (`none`). -/
def jsOr (a : Option JVal) (b : JVal) : JVal :=
  match a with
  | some v => if truthy v then v else b
  | none => b

/-- The numeric value of a digit string, most significant digit first. -/
def digitsToNat (s : JStr) : Nat :=
  s.foldl (fun n c => n * 10 + (c.toNat - '0'.toNat)) 0

/-- A canonical numeric property key per ECMA-262 (the form under which
JS treats a string key as an index): decimal digits with no leading
zero except for the key consisting of the single digit 0. The upper
index bound of ECMA-262 is immaterial here because string property
access additionally checks the index against the string's length. -/
def canonicalIndex? (part : JStr) : Option Nat :=
  match part with
  | [] => none
  | c :: rest =>
    if c = '0' then (if rest = [] then some 0 else none)
    else if c.isDigit && rest.all Char.isDigit then some (digitsToNat part) else none

/-- The string-keyed member names of Object.prototype per ECMA-262
(inherited by strings and numbers alike). In this model each resolves
to an opaque host object. -/
def objectProtoNames : List JStr :=
  ["constructor", "hasOwnProperty", "isPrototypeOf", "propertyIsEnumerable",
   "toLocaleString", "toString", "valueOf", "__proto__", "__defineGetter__",
   "__defineSetter__", "__lookupGetter__", "__lookupSetter__"].map String.toList

/-- The string-keyed member names of String.prototype and its prototype
chain per ECMA-262 (including the Annex B legacy methods). In this
model each resolves to an opaque host object. -/
def stringProtoNames : List JStr :=
  (["at", "charAt", "charCodeAt", "codePointAt", "concat", "endsWith",
    "includes", "indexOf", "isWellFormed", "lastIndexOf", "localeCompare",
    "match", "matchAll", "normalize", "padEnd", "padStart", "repeat",
    "replace", "replaceAll", "search", "slice", "split", "startsWith",
    "substring", "toLocaleLowerCase", "toLocaleUpperCase", "toLowerCase",
    "toUpperCase", "toWellFormed", "trim", "trimEnd", "trimStart",
    "anchor", "big", "blink", "bold", "fixed", "fontcolor", "fontsize",
    "italics", "link", "small", "strike", "sub", "sup", "substr",
    "trimLeft", "trimRight"].map String.toList) ++ objectProtoNames

/-- The string-keyed member names of Number.prototype and its prototype
chain per ECMA-262. -/
def numberProtoNames : List JStr :=
  (["toExponential", "toFixed", "toLocaleString", "toPrecision",
    "toString", "valueOf"].map String.toList) ++ objectProtoNames

/-- JS property access `s[part]` on a string value: `length` yields the
string's length, a canonical in-range index yields the one-character
string at that index, a prototype member name yields a host object, and
any other key is `undefined`. -/
def stringProp (s : JStr) (part : JStr) : Option JVal :=
  if part = "length".toList then some (.vnum s.length)
  else
    match canonicalIndex? part with
    | some i =>
      match s[i]? with
      | some c => some (.vstr [c])
      | none => none
    | none => if part ∈ stringProtoNames then some (.vhost part) else none

/-- JS property access `n[part]` on a number value: numbers have no own
string-keyed properties, so only prototype member names resolve. -/
def numberProp (part : JStr) : Option JVal :=
  if part ∈ numberProtoNames then some (.vhost part) else none

/-- Property access on an opaque host object (a built-in prototype
member reached from a string or number leaf). Real JS exposes further
structure here (a function's `name` and `length`, Function.prototype
members, and accessor properties that throw on access); that structure
is the frontier of this model and no theorem below depends on the
result of this definition. -/
def hostProp (_name _part : JStr) : Option JVal := none

/-- The getValue closure of `t` (src/index.ts:156-164): walk the path
segments; at each step, if the current value is `undefined` or `null`
the result is `undefined`; otherwise the JS member access `value[part]`
is performed: own-key lookup on objects, string property access
(`length`, canonical indices, prototype members) on string leaves, and
prototype member access on numbers and host objects. -/
def getValue (d : Option JVal) : List JStr → Option JVal
  | [] => d
  | part :: rest =>
    match d with
    | none => none
    | some .vnull => none
    | some (.vstr s) => getValue (stringProp s part) rest
    | some (.vnum _) => getValue (numberProp part) rest
    | some (.vhost h) => getValue (hostProp h part) rest
    | some (.vdict es) => getValue (lookupAssoc es part) rest

/-- The post-traversal presence check `value !== undefined && value !== null`
(src/index.ts:167 and 172). -/
def foundVal : Option JVal → Option JVal
  | none => none
  | some .vnull => none
  | some v => some v

/-- The locale code the source compares against for fallback. -/
def enUS : JStr := "en-US".toList

/-- The dictionary selected for a locale (src/index.ts:153):
translations[locale] || translations["en-US"] || the empty object. -/
def selectDict (translations : List (JStr × JVal)) (locale : JStr) : JVal :=
  jsOr (lookupAssoc translations locale)
    (jsOr (lookupAssoc translations enUS) (.vdict []))

/-- The English fallback dictionary (src/index.ts:154):
translations["en-US"] || the empty object. -/
def selectEnDict (translations : List (JStr × JVal)) : JVal :=
  jsOr (lookupAssoc translations enUS) (.vdict [])

/-- The translation helper `t` (src/index.ts:152-176). The source
annotates the return type as string but returns whatever leaf value the
traversal finds; the model returns the found value, with `JVal.vstr key`
as the literal-key fallback. The source's default for the `locale`
parameter is the resolved `regionalConfig.defaultLocale`; the model
takes `locale` explicitly. -/
def t (translations : List (JStr × JVal)) (key : JStr) (locale : JStr) : JVal :=
  match foundVal (getValue (some (selectDict translations locale)) (splitChar '.' key)) with
  | some v => v
  | none =>
    if locale ≠ enUS then
      match foundVal (getValue (some (selectEnDict translations)) (splitChar '.' key)) with
      | some v => v
      | none => .vstr key
    else .vstr key

/-- The ambient browser cookie jar: an ordered list of name/value pairs.
The `document.cookie` getter serializes it; assignment updates it. -/
abbrev CookieStore := List (JStr × JStr)

/-- The `document.cookie` getter wire format: `n1=v1; n2=v2; ...`. -/
def cookieHeader (store : CookieStore) : JStr :=
  joinSeq (';' :: ' ' :: []) (store.map fun p => p.1 ++ '=' :: p.2)

/-- Browser cookie-jar update: an existing cookie of the same name keeps
its position and gets the new value; a new one is appended. -/
def upsertCookie (store : CookieStore) (n v : JStr) : CookieStore :=
  match store with
  | [] => [(n, v)]
  | (n', v') :: rest =>
    if n' = n then (n, v) :: rest else (n', v') :: upsertCookie rest n v

/-- Browser semantics of the assignment `document.cookie = s`: the
name/value pair before the first `; ` is stored (what follows are
attributes such as path and max-age, which do not change the stored
value); the name is the part before the first `=`. -/
def assignCookie (store : CookieStore) (s : JStr) : CookieStore :=
  match splitChar '=' ((splitSemiSpace s).headD []) with
  | [] => store
  | n :: rest => upsertCookie store n (joinSeq ['='] rest)

/-- The cookie string written by setLocaleCookie (src/index.ts:183). -/
def setCookieString (locale : JStr) : JStr :=
  "NEXT_LOCALE=".toList ++ locale ++ "; path=/; max-age=31536000; SameSite=Lax".toList

/-- The name of the locale cookie. -/
def nextLocaleName : JStr := "NEXT_LOCALE".toList

/-- Model of setLocaleCookie (src/index.ts:181-184): when there is no
ambient document (`none`) it returns without writing; otherwise it
assigns the cookie string to `document.cookie`. -/
def setLocaleCookie (doc : Option CookieStore) (locale : JStr) : Option CookieStore :=
  match doc with
  | none => none
  | some store => some (assignCookie store (setCookieString locale))

/-- The ternary `localeCookie ? localeCookie.split('=')[1] : null`
(src/index.ts:190): an absent or empty (falsy) row yields `null`,
otherwise the part of the row between the first and second `=`. -/
def readLocaleRow : Option JStr → Option JStr
  | some row => if row.isEmpty then none else some ((splitChar '=' row).getD 1 [])
  | none => none

/-- Model of getLocaleCookie (src/index.ts:186-191): `null` when there is
no ambient document; otherwise split `document.cookie` on `; `, find the
first row starting with `NEXT_LOCALE=`, and apply the ternary to it. -/
def getLocaleCookie (doc : Option CookieStore) : Option JStr :=
  match doc with
  | none => none
  | some store =>
    readLocaleRow ((splitSemiSpace (cookieHeader store)).find?
      (fun row => (nextLocaleName ++ ['=']).isPrefixOf row))

/-- Resolved brand identity, the brandConfig object of
src/index.ts:113-120; `logoUrl = none` models JS `null`. -/
structure BrandConfig where
  name : String
  tagline : String
  logoUrl : Option String
  primaryColor : String
  secondaryColor : String
  tertiaryColor : String
deriving Repr, DecidableEq

/-- Caller-supplied brand option: every field optional. For `logoUrl`
the outer `Option` is presence (`none` = the field is absent/undefined)
and the inner one JS null. -/
structure BrandInput where
  name : Option String := none
  tagline : Option String := none
  logoUrl : Option (Option String) := none
  primaryColor : Option String := none
  secondaryColor : Option String := none
  tertiaryColor : Option String := none
deriving Repr, DecidableEq

/-- The NEXT_PUBLIC_* environment variables read at construction time;
`none` models an unset variable. -/
structure Env where
  appName : Option String := none
  appTagline : Option String := none
  appLogoUrl : Option String := none
  primaryColor : Option String := none
  secondaryColor : Option String := none
  tertiaryColor : Option String := none
  defaultCurrency : Option String := none
  defaultLocale : Option String := none
deriving Repr, DecidableEq

/-- Model of JS `a || b` for `a : string | undefined` and a string
fallback: `a` wins exactly when it is present and non-empty. -/
def strOr (a : Option String) (b : String) : String :=
  match a with
  | some s => if s = "" then b else s
  | none => b

/-- Model of JS `a || b` for `a : string | undefined` and a nullable
fallback (used for the logo chain `env-var || DEFAULT_BRAND.logoUrl`). -/
def strOrNull (a : Option String) (b : Option String) : Option String :=
  match a with
  | some s => if s = "" then b else some s
  | none => b

/-- The DEFAULT_BRAND constant (src/index.ts:70-77). -/
def DEFAULT_BRAND : BrandConfig :=
  { name := "MyApp"
  , tagline := "Your Application"
  , logoUrl := none
  , primaryColor := "#4f46e5"
  , secondaryColor := "#10b981"
  , tertiaryColor := "#f59e0b" }

/-- The brand merge (src/index.ts:113-120). Every field except the logo
uses truthiness chaining; the logo uses the strict presence check
`brand.logoUrl !== undefined`. -/
def resolveBrand (env : Env) (brand : BrandInput) : BrandConfig :=
  { name := strOr brand.name (strOr env.appName DEFAULT_BRAND.name)
  , tagline := strOr brand.tagline (strOr env.appTagline DEFAULT_BRAND.tagline)
  , logoUrl :=
      match brand.logoUrl with
      | some v => v
      | none => strOrNull env.appLogoUrl DEFAULT_BRAND.logoUrl
  , primaryColor := strOr brand.primaryColor (strOr env.primaryColor DEFAULT_BRAND.primaryColor)
  , secondaryColor := strOr brand.secondaryColor (strOr env.secondaryColor DEFAULT_BRAND.secondaryColor)
  , tertiaryColor := strOr brand.tertiaryColor (strOr env.tertiaryColor DEFAULT_BRAND.tertiaryColor) }

/-- Caller-supplied regional option. -/
structure RegionalInput where
  defaultCurrency : Option String := none
  defaultLocale : Option String := none
deriving Repr, DecidableEq

/-- Resolved regional settings. -/
structure RegionalConfig where
  defaultCurrency : String
  defaultLocale : String
deriving Repr, DecidableEq

/-- The regional merge (src/index.ts:122-125). -/
def resolveRegional (env : Env) (regional : RegionalInput) : RegionalConfig :=
  { defaultCurrency := strOr regional.defaultCurrency (strOr env.defaultCurrency "USD")
  , defaultLocale := strOr regional.defaultLocale (strOr env.defaultLocale "en-US") }

/-- A currency entry (code, display flag glyph, display name, symbol). -/
structure Currency where
  code : String
  flag : String
  name : String
  symbol : String
deriving Repr, DecidableEq

/-- A language entry (code, display flag glyph, display name). -/
structure Language where
  code : String
  flag : String
  name : String
deriving Repr, DecidableEq

/-- A pricing entry (price string and currency symbol). -/
structure PricingEntry where
  price : String
  symbol : String
deriving Repr, DecidableEq

/-- The DEFAULT_CURRENCIES constant (src/index.ts:79-89). -/
def DEFAULT_CURRENCIES : List Currency :=
  [ { code := "USD", flag := "🇺🇸", name := "US Dollar", symbol := "$" }
  , { code := "EUR", flag := "🇪🇺", name := "Euro", symbol := "€" }
  , { code := "GBP", flag := "🇬🇧", name := "British Pound", symbol := "£" }
  , { code := "JPY", flag := "🇯🇵", name := "Japanese Yen", symbol := "¥" }
  , { code := "INR", flag := "🇮🇳", name := "Indian Rupee", symbol := "₹" }
  , { code := "SGD", flag := "🇸🇬", name := "Singapore Dollar", symbol := "$" }
  , { code := "AUD", flag := "🇦🇺", name := "Australian Dollar", symbol := "$" }
  , { code := "CAD", flag := "🇨🇦", name := "Canadian Dollar", symbol := "$" }
  , { code := "SEK", flag := "🇸🇪", name := "Swedish Krona", symbol := "kr" } ]

/-- The DEFAULT_LANGUAGES constant (src/index.ts:91-95). -/
def DEFAULT_LANGUAGES : List Language :=
  [ { code := "en-US", flag := "🇺🇸", name := "English (US)" }
  , { code := "es-ES", flag := "🇪🇸", name := "Spanish" }
  , { code := "fr-FR", flag := "🇫🇷", name := "French" } ]

/-- Model of `Array.from(new Set(xs))`: the first occurrence of each
element, in insertion order. -/
def jsSetList (xs : List String) : List String :=
  xs.foldl (fun acc x => if x ∈ acc then acc else acc ++ [x]) []

/-- The computed supportedLocales (src/index.ts:128-133). -/
def supportedLocales (languages marketingLanguages : List Language) : List String :=
  jsSetList (languages.map Language.code ++ marketingLanguages.map Language.code)

/-- A top-level value of the aggregate CONFIG object. Built-in keys carry
typed values; custom entries carry arbitrary values. -/
inductive ConfigVal where
  | brandV : BrandConfig → ConfigVal
  | regionalV : RegionalConfig → ConfigVal
  | currenciesV : List Currency → ConfigVal
  | languagesV : List Language → ConfigVal
  | pricingV : List (String × PricingEntry) → ConfigVal
  | i18nV : Bool → List String → ConfigVal
  | customV : JVal → ConfigVal
deriving Repr

/-- The BrandModuleOptions record with the source's destructuring
defaults (src/index.ts:101-110); `none` for a sequence field selects the
built-in default list. -/
structure BrandModuleOptions where
  brand : BrandInput := {}
  regional : RegionalInput := {}
  currencies : Option (List Currency) := none
  languages : Option (List Language) := none
  marketingLanguages : Option (List Language) := none
  pricingMap : List (String × PricingEntry) := []
  translations : List (JStr × JVal) := []
  customConfig : List (String × ConfigVal) := []

/-- JS object-literal key update (used by spread): an existing key keeps
its position and receives the new value; a new key is appended. -/
def setKey (m : List (String × ConfigVal)) (k : String) (v : ConfigVal) :
    List (String × ConfigVal) :=
  match m with
  | [] => [(k, v)]
  | (k', v') :: rest =>
    if k' = k then (k, v) :: rest else (k', v') :: setKey rest k v

/-- Spread `custom` onto `base`, in order, with JS object semantics. -/
def spreadOnto (base custom : List (String × ConfigVal)) : List (String × ConfigVal) :=
  custom.foldl (fun acc kv => setKey acc kv.1 kv.2) base

/-- The aggregate CONFIG object (src/index.ts:135-147) as an ordered
key/value object, so that custom-config shadowing is observable. -/
def CONFIG (env : Env) (options : BrandModuleOptions) : List (String × ConfigVal) :=
  spreadOnto
    [ ("brand", .brandV (resolveBrand env options.brand))
    , ("regional", .regionalV (resolveRegional env options.regional))
    , ("currencies", .currenciesV (options.currencies.getD DEFAULT_CURRENCIES))
    , ("languages", .languagesV (options.languages.getD DEFAULT_LANGUAGES))
    , ("marketingLanguages", .languagesV (options.marketingLanguages.getD DEFAULT_LANGUAGES))
    , ("PRICING_MAP", .pricingV options.pricingMap)
    , ("i18n", .i18nV true
        (supportedLocales (options.languages.getD DEFAULT_LANGUAGES)
          (options.marketingLanguages.getD DEFAULT_LANGUAGES))) ]
    options.customConfig

/-- Property read `CONFIG[k]` on the ordered key/value object. -/
def getKey (m : List (String × ConfigVal)) (k : String) : Option ConfigVal :=
  match m with
  | [] => none
  | (k', v) :: rest => if k' = k then some v else getKey rest k

/-! Specification-side definitions, written from the spec's words, to be
compared against the code-side definitions above. -/

/-- Spec side: the first of [explicit option value, environment variable
value, built-in default] that is present and non-empty, evaluated in
that fixed order. -/
def firstPresentNonEmpty (explicitVal envVal : Option String) (dflt : String) : String :=
  match explicitVal with
  | some s =>
    if s ≠ "" then s
    else
      match envVal with
      | some e => if e ≠ "" then e else dflt
      | none => dflt
  | none =>
    match envVal with
    | some e => if e ≠ "" then e else dflt
    | none => dflt

/-- Spec side: the dotted-path segments all exist along a path of nested
dictionaries and lead from the root value to `w`. -/
inductive PathLeadsTo : JVal → List JStr → JVal → Prop
  | nil (v : JVal) : PathLeadsTo v [] v
  | cons {es : List (JStr × JVal)} {s : JStr} {v w : JVal} {rest : List JStr} :
      lookupAssoc es s = some v → PathLeadsTo v rest w →
      PathLeadsTo (.vdict es) (s :: rest) w

/-- Spec side: deduplication keeping the first occurrence of each
element, in order. -/
def dedupKeepFirst : List String → List String
  | [] => []
  | x :: xs => x :: dedupKeepFirst (xs.filter (fun y => y ≠ x))
termination_by xs => xs.length
decreasing_by
  simp_wf
  exact Nat.lt_succ_of_le (List.length_filter_le _ _)

/-- Spec side: the deduplicated union of dashboard and marketing
language codes, dashboard codes first in their given order, followed by
the marketing-only codes not already present. -/
def specLocaleUnion (dashboard marketing : List String) : List String :=
  dedupKeepFirst dashboard ++ dedupKeepFirst (marketing.filter (fun c => c ∉ dashboard))

/-- The last binding of key `k` in a custom-config list (the binding JS
object spread lets win). -/
def lastCustom (custom : List (String × ConfigVal)) (k : String) : Option ConfigVal :=
  match custom with
  | [] => none
  | (k', v) :: rest =>
    match lastCustom rest k with
    | some w => some w
    | none => if k' = k then some v else none

/-- Well-formedness of an ambient cookie store: cookie names contain
neither a semicolon nor an equals sign, and values contain no semicolon
(values may contain equals signs). -/
def wfStore (store : CookieStore) : Prop :=
  ∀ p ∈ store, ';' ∉ p.1 ∧ '=' ∉ p.1 ∧ ';' ∉ p.2

instance wfStore.decPred (store : CookieStore) : Decidable (wfStore store) := by
  unfold wfStore
  infer_instance

/-- A plain URL-safe token: every character is alphanumeric or one of
the unreserved URL characters. -/
def urlSafeToken (s : JStr) : Prop :=
  ∀ c ∈ s, (c.isAlphanum || c = '-' || c = '_' || c = '.' || c = '~') = true

instance urlSafeToken.decPred (s : JStr) : Decidable (urlSafeToken s) := by
  unfold urlSafeToken
  infer_instance

/-- The first cookie entry with the given name. -/
def findCookie (store : CookieStore) (n : JStr) : Option (JStr × JStr) :=
  store.find? (fun p => p.1 = n)

/-! Helper lemmas about splitting, joining and traversal. -/

theorem splitChar_of_not_mem {c : Char} {s : JStr} (h : c ∉ s) : splitChar c s = [s] := by
  induction s with
  | nil => rfl
  | cons x xs ih =>
    have hx : ¬ x = c := by
      rintro rfl
      exact h (List.mem_cons_self _ _)
    have hxs : c ∉ xs := fun hm => h (List.mem_cons_of_mem _ hm)
    rw [splitChar, if_neg hx, ih hxs]

theorem splitChar_append {c : Char} {a : JStr} (b : JStr) (h : c ∉ a) :
    splitChar c (a ++ c :: b) = a :: splitChar c b := by
  induction a with
  | nil =>
    rw [List.nil_append, splitChar, if_pos rfl]
  | cons x xs ih =>
    have hx : ¬ x = c := by
      rintro rfl
      exact h (List.mem_cons_self _ _)
    have hxs : c ∉ xs := fun hm => h (List.mem_cons_of_mem _ hm)
    rw [List.cons_append, splitChar, if_neg hx, ih hxs]

theorem splitSemiSpace_of_not_mem {s : JStr} (h : ';' ∉ s) : splitSemiSpace s = [s] := by
  induction s with
  | nil => rfl
  | cons x xs ih =>
    cases xs with
    | nil => rfl
    | cons y ys =>
      have hx : ¬ (x = ';' ∧ y = ' ') := by
        rintro ⟨rfl, -⟩
        exact h (List.mem_cons_self _ _)
      have hxs : ';' ∉ y :: ys := fun hm => h (List.mem_cons_of_mem _ hm)
      rw [splitSemiSpace, if_neg hx, ih hxs]

theorem splitSemiSpace_append {a : JStr} (b : JStr) (h : ';' ∉ a) :
    splitSemiSpace (a ++ ';' :: ' ' :: b) = a :: splitSemiSpace b := by
  induction a with
  | nil =>
    rw [List.nil_append, splitSemiSpace, if_pos ⟨rfl, rfl⟩]
  | cons x xs ih =>
    have hx : ¬ x = ';' := by
      rintro rfl
      exact h (List.mem_cons_self _ _)
    have hxs : ';' ∉ xs := fun hm => h (List.mem_cons_of_mem _ hm)
    have hrec := ih hxs
    cases xs with
    | nil =>
      have hcond : ¬ (x = ';' ∧ (';' : Char) = ' ') := fun hh => hx hh.1
      rw [List.cons_append, List.nil_append, splitSemiSpace, if_neg hcond,
        splitSemiSpace, if_pos ⟨rfl, rfl⟩]
    | cons y ys =>
      have hcond : ¬ (x = ';' ∧ y = ' ') := fun hh => hx hh.1
      rw [List.cons_append] at hrec
      rw [List.cons_append, List.cons_append, splitSemiSpace, if_neg hcond, hrec]

theorem splitChar_joinSeq {c : Char} {parts : List JStr} (hne : parts ≠ [])
    (h : ∀ p ∈ parts, c ∉ p) : splitChar c (joinSeq [c] parts) = parts := by
  induction parts with
  | nil => cases hne rfl
  | cons p rest ih =>
    cases rest with
    | nil => exact splitChar_of_not_mem (h p (List.mem_cons_self _ _))
    | cons q r =>
      have hjoin : joinSeq [c] (p :: q :: r) = p ++ c :: joinSeq [c] (q :: r) := by
        rw [joinSeq, List.append_assoc, List.singleton_append]
      rw [hjoin, splitChar_append _ (h p (List.mem_cons_self _ _)),
        ih (by simp) (fun x hx => h x (List.mem_cons_of_mem _ hx))]

theorem splitSemiSpace_joinSeq {rows : List JStr} (hne : rows ≠ [])
    (h : ∀ r ∈ rows, ';' ∉ r) :
    splitSemiSpace (joinSeq (';' :: ' ' :: []) rows) = rows := by
  induction rows with
  | nil => cases hne rfl
  | cons p rest ih =>
    cases rest with
    | nil => exact splitSemiSpace_of_not_mem (h p (List.mem_cons_self _ _))
    | cons q r =>
      have hjoin : joinSeq (';' :: ' ' :: []) (p :: q :: r) =
          p ++ ';' :: ' ' :: joinSeq (';' :: ' ' :: []) (q :: r) := by
        rw [joinSeq, List.append_assoc, List.cons_append, List.singleton_append]
      rw [hjoin, splitSemiSpace_append _ (h p (List.mem_cons_self _ _)),
        ih (by simp) (fun x hx => h x (List.mem_cons_of_mem _ hx))]

theorem getValue_nil_input : ∀ ks, getValue none ks = none := by
  intro ks
  cases ks <;> rfl

theorem getValue_append (xs ys : List JStr) :
    ∀ d, getValue d (xs ++ ys) = getValue (getValue d xs) ys := by
  induction xs with
  | nil => intro d; rfl
  | cons p rest ih =>
    intro d
    match d with
    | none => rw [getValue_nil_input, getValue_nil_input, getValue_nil_input]
    | some .vnull =>
      rw [List.cons_append, getValue, getValue, getValue_nil_input]
    | some (.vstr s) =>
      rw [List.cons_append, getValue, getValue]
      exact ih _
    | some (.vnum n) =>
      rw [List.cons_append, getValue, getValue]
      exact ih _
    | some (.vhost h) =>
      rw [List.cons_append, getValue, getValue]
      exact ih _
    | some (.vdict es) =>
      rw [List.cons_append, getValue, getValue]
      exact ih _

theorem getValue_of_path {d : JVal} {segs : List JStr} {w : JVal}
    (h : PathLeadsTo d segs w) : getValue (some d) segs = some w := by
  induction h with
  | nil v => rfl
  | cons hlook _ ih =>
    rw [getValue, hlook]
    exact ih

theorem foundVal_of_ne_null {v : JVal} (h : v ≠ .vnull) : foundVal (some v) = some v := by
  cases v with
  | vnull => cases h rfl
  | vstr s => rfl
  | vnum n => rfl
  | vhost hn => rfl
  | vdict es => rfl

theorem strOr_eq_firstPresent (a b : Option String) (c : String) :
    strOr a (strOr b c) = firstPresentNonEmpty a b c := by
  cases a with
  | none =>
    cases b with
    | none => rfl
    | some e =>
      by_cases he : e = "" <;> simp [strOr, firstPresentNonEmpty, he]
  | some s =>
    by_cases hs : s = ""
    · cases b with
      | none => simp [strOr, firstPresentNonEmpty, hs]
      | some e =>
        by_cases he : e = "" <;> simp [strOr, firstPresentNonEmpty, hs, he]
    · simp [strOr, firstPresentNonEmpty, hs]

/-- C1: every brand string field and both regional fields resolve to the
first of [explicit option value, environment variable, built-in default]
that is present and non-empty, in that fixed order. -/
theorem resolve_precedence_C1 (env : Env) (brand : BrandInput) (regional : RegionalInput) :
    (resolveBrand env brand).name = firstPresentNonEmpty brand.name env.appName "MyApp"
    ∧ (resolveBrand env brand).tagline
        = firstPresentNonEmpty brand.tagline env.appTagline "Your Application"
    ∧ (resolveBrand env brand).primaryColor
        = firstPresentNonEmpty brand.primaryColor env.primaryColor "#4f46e5"
    ∧ (resolveBrand env brand).secondaryColor
        = firstPresentNonEmpty brand.secondaryColor env.secondaryColor "#10b981"
    ∧ (resolveBrand env brand).tertiaryColor
        = firstPresentNonEmpty brand.tertiaryColor env.tertiaryColor "#f59e0b"
    ∧ (resolveRegional env regional).defaultCurrency
        = firstPresentNonEmpty regional.defaultCurrency env.defaultCurrency "USD"
    ∧ (resolveRegional env regional).defaultLocale
        = firstPresentNonEmpty regional.defaultLocale env.defaultLocale "en-US" :=
  ⟨strOr_eq_firstPresent _ _ _, strOr_eq_firstPresent _ _ _, strOr_eq_firstPresent _ _ _,
   strOr_eq_firstPresent _ _ _, strOr_eq_firstPresent _ _ _, strOr_eq_firstPresent _ _ _,
   strOr_eq_firstPresent _ _ _⟩

/-- C2: the logo is resolved with a strict presence check: an explicitly
present value (including explicit null) is returned as-is regardless of
the environment; only an omitted field falls through to the environment
variable and then to the built-in default (null). -/
theorem logo_strict_C2 (env : Env) (brand : BrandInput) :
    ((resolveBrand env { brand with logoUrl := some none }).logoUrl = none)
    ∧ (∀ u : Option String,
        (resolveBrand env { brand with logoUrl := some u }).logoUrl = u)
    ∧ ((resolveBrand env { brand with logoUrl := none }).logoUrl =
        match env.appLogoUrl with
        | some e => if e ≠ "" then some e else none
        | none => none) := by
  refine ⟨rfl, fun u => rfl, ?_⟩
  cases henv : env.appLogoUrl with
  | none => simp [resolveBrand, strOrNull, henv, DEFAULT_BRAND]
  | some e =>
    by_cases he : e = "" <;> simp [resolveBrand, strOrNull, henv, he, DEFAULT_BRAND]

theorem getKey_setKey (k k' : String) (v' : ConfigVal) :
    ∀ m, getKey (setKey m k' v') k = if k' = k then some v' else getKey m k := by
  intro m
  induction m with
  | nil => rfl
  | cons p rest ih =>
    obtain ⟨a, b⟩ := p
    by_cases ha : a = k'
    · subst ha
      rw [setKey, if_pos rfl, getKey, getKey]
      by_cases hk : a = k
      · rw [if_pos hk, if_pos hk]
      · rw [if_neg hk, if_neg hk, if_neg hk]
    · rw [setKey, if_neg ha, getKey, getKey]
      by_cases hab : a = k
      · rw [if_pos hab, if_pos hab, if_neg (fun hk => ha (hab.trans hk.symm))]
      · rw [if_neg hab, if_neg hab, ih]

theorem getKey_spreadOnto : ∀ (custom base : List (String × ConfigVal)) (k : String),
    getKey (spreadOnto base custom) k =
      match lastCustom custom k with
      | some v => some v
      | none => getKey base k := by
  intro custom
  induction custom with
  | nil => intro base k; rfl
  | cons p rest ih =>
    intro base k
    obtain ⟨k', v'⟩ := p
    have h1 : getKey (spreadOnto (setKey base k' v') rest) k
        = match lastCustom rest k with
          | some w => some w
          | none => getKey (setKey base k' v') k := ih (setKey base k' v') k
    rw [spreadOnto, List.foldl_cons]
    rw [spreadOnto] at h1
    rw [h1, getKey_setKey, lastCustom]
    cases lastCustom rest k with
    | some w => rfl
    | none => by_cases hk : k' = k <;> simp [hk]

/-- C9: a top-level read of the aggregate configuration returns the last
custom-config binding of the key when one exists, and otherwise the
built-in value; so custom entries are spread onto the top level, a
colliding key shadows the built-in value, and non-colliding keys leave
every built-in field unchanged. -/
theorem config_spread_C9 (env : Env) (options : BrandModuleOptions) (k : String) :
    getKey (CONFIG env options) k =
      match lastCustom options.customConfig k with
      | some v => some v
      | none => getKey (CONFIG env { options with customConfig := [] }) k := by
  rw [CONFIG, CONFIG]
  exact getKey_spreadOnto options.customConfig _ k

/-! Claims C3, C4, C6: translation lookup. -/

/-- C4: a dotted-path key whose segments all exist along a path of
nested dictionaries ending at a non-null leaf is split on the dot and
resolved to that leaf. -/
theorem t_nested_C4 (translations : List (JStr × JVal)) (locale : JStr)
    (segs : List JStr) (w : JVal)
    (hne : segs ≠ []) (hdot : ∀ p ∈ segs, '.' ∉ p)
    (hpath : PathLeadsTo (selectDict translations locale) segs w)
    (hw : w ≠ .vnull) :
    t translations (joinSeq ['.'] segs) locale = w := by
  rw [t, splitChar_joinSeq hne hdot, getValue_of_path hpath, foundVal_of_ne_null hw]

theorem t_nested_C4_witness :
    t [(enUS, JVal.vdict [("a".toList,
          JVal.vdict [("b".toList, JVal.vdict [("c".toList, JVal.vstr "X".toList)])])])]
        (joinSeq ['.'] ["a".toList, "b".toList, "c".toList]) enUS = JVal.vstr "X".toList :=
  t_nested_C4 _ enUS ["a".toList, "b".toList, "c".toList] (JVal.vstr "X".toList)
    (by decide) (by decide)
    (PathLeadsTo.cons rfl (PathLeadsTo.cons rfl (PathLeadsTo.cons rfl (PathLeadsTo.nil _))))
    (fun h => JVal.noConfusion h)

/-- C6, counterexample to the original claim: against the dictionary
with a bound to the string hi, the key a.length has a trailing segment
past the string leaf yet the traversal returns the defined value 2 (JS
string property access), both at the getValue level and through `t`; so
the traversal does not yield not-found the moment a terminal leaf is
reached while segments remain. -/
theorem getValue_leaf_C6_counterexample :
    getValue (some (JVal.vdict [("a".toList, JVal.vstr "hi".toList)]))
      (["a".toList] ++ ["length".toList]) = some (JVal.vnum 2)
    ∧ getValue (some (JVal.vdict [("a".toList, JVal.vstr "hi".toList)]))
        (["a".toList] ++ ["length".toList]) ≠ none
    ∧ t [(enUS, JVal.vdict [("a".toList, JVal.vstr "hi".toList)])]
        "a.length".toList enUS = JVal.vnum 2 := by
  refine ⟨rfl, ?_, rfl⟩
  intro h
  rw [show getValue (some (JVal.vdict [("a".toList, JVal.vstr "hi".toList)]))
      (["a".toList] ++ ["length".toList]) = some (JVal.vnum 2) from rfl] at h
  exact Option.noConfusion h

/-- C6 (amended): the traversal yields not-found the moment the current
value is absent or null; a terminal string leaf reached while segments
remain is resolved by JS string property access, so a key with extra
trailing segments past a leaf can return a value (the leaf's length
property yields the string's length), and only a segment that is not a
string property (not length, not an in-range canonical index, not a
prototype member name) yields not-found and collapses the remainder. -/
theorem getValue_abort_C6 :
    (∀ (s : JStr) (rest : List JStr), getValue none (s :: rest) = none)
    ∧ (∀ (s : JStr) (rest : List JStr), getValue (some JVal.vnull) (s :: rest) = none)
    ∧ (∀ str : JStr,
        getValue (some (JVal.vstr str)) ["length".toList] = some (JVal.vnum str.length))
    ∧ (∀ (d : JVal) (segs : List JStr) (str e : JStr) (extra : List JStr),
        PathLeadsTo d segs (JVal.vstr str) → stringProp str e = none →
        getValue (some d) (segs ++ e :: extra) = none) := by
  refine ⟨fun s rest => rfl, fun s rest => rfl, fun str => ?_, ?_⟩
  · show stringProp str "length".toList = some (JVal.vnum str.length)
    rw [stringProp, if_pos rfl]
  · intro d segs str e extra hpath hnone
    rw [getValue_append, getValue_of_path hpath]
    show getValue (stringProp str e) extra = none
    rw [hnone]
    exact getValue_nil_input extra

theorem getValue_abort_C6_witness :
    getValue (some (JVal.vdict [("a".toList, JVal.vstr "hi".toList)]))
      (["a".toList] ++ "foo".toList :: []) = none :=
  getValue_abort_C6.2.2.2 _ ["a".toList] "hi".toList "foo".toList []
    (PathLeadsTo.cons rfl (PathLeadsTo.nil _)) rfl

/-! Claim C5: the supported-locales invariant. -/

theorem mem_dedupKeepFirst (x : String) (l : List String) :
    x ∈ dedupKeepFirst l ↔ x ∈ l := by
  induction l using dedupKeepFirst.induct with
  | case1 => simp [dedupKeepFirst]
  | case2 a as ih =>
    rw [dedupKeepFirst]
    by_cases hxa : x = a
    · subst hxa
      simp
    · simp only [ne_eq, decide_not] at ih
      simp [List.mem_cons, ih, List.mem_filter, hxa]

theorem foldl_dedup_eq (xs : List String) : ∀ acc,
    List.foldl (fun acc x => if x ∈ acc then acc else acc ++ [x]) acc xs
      = acc ++ dedupKeepFirst (xs.filter (fun y => y ∉ acc)) := by
  induction xs with
  | nil => intro acc; simp [dedupKeepFirst]
  | cons x xs ih =>
    intro acc
    rw [List.foldl_cons, List.filter_cons]
    by_cases hx : x ∈ acc
    · rw [if_pos hx, ih acc]
      have hxb : decide (x ∉ acc) = false := by simp [hx]
      rw [hxb, if_neg (by simp)]
    · rw [if_neg hx, ih (acc ++ [x])]
      have hxb : decide (x ∉ acc) = true := by simp [hx]
      rw [hxb, if_pos rfl, dedupKeepFirst, List.append_assoc, List.singleton_append]
      congr 2
      rw [List.filter_filter]
      refine congrArg dedupKeepFirst (List.filter_congr ?_)
      intro y hy
      by_cases h1 : y ∈ acc <;> by_cases h2 : y = x <;>
        simp [h1, h2, List.mem_append]

theorem jsSetList_append (d m : List String) :
    jsSetList (d ++ m) = dedupKeepFirst d ++ dedupKeepFirst (m.filter (fun y => y ∉ d)) := by
  have h0 : List.foldl (fun acc x => if x ∈ acc then acc else acc ++ [x]) [] d
      = dedupKeepFirst d := by
    rw [foldl_dedup_eq, List.nil_append]
    congr 1
    simp
  rw [jsSetList, List.foldl_append, h0, foldl_dedup_eq]
  congr 2
  refine List.filter_congr ?_
  intro y hy
  rw [decide_eq_decide]
  simp [mem_dedupKeepFirst]

/-- C5: the computed supportedLocales list equals the deduplicated union
of dashboard and marketing language codes, dashboard codes first in
their given order followed by the marketing-only codes not already
present; and it is what the aggregate's i18n block carries. -/
theorem supportedLocales_C5 (env : Env) (options : BrandModuleOptions)
    (languages marketingLanguages : List Language) :
    supportedLocales languages marketingLanguages
      = specLocaleUnion (languages.map Language.code) (marketingLanguages.map Language.code)
    ∧ getKey (CONFIG env { options with customConfig := [] }) "i18n"
      = some (.i18nV true
          (supportedLocales (options.languages.getD DEFAULT_LANGUAGES)
            (options.marketingLanguages.getD DEFAULT_LANGUAGES))) := by
  constructor
  · rw [supportedLocales, jsSetList_append, specLocaleUnion]
  · rfl

/-! Claims C7, C8, C10: locale cookie helpers. -/

theorem not_semi_mem_row {n v : JStr} (hn : ';' ∉ n) (hv : ';' ∉ v) :
    ';' ∉ n ++ '=' :: v := by
  intro hmem
  rcases List.mem_append.mp hmem with h | h
  · exact hn h
  · rcases List.mem_cons.mp h with h | h
    · exact absurd h (by decide)
    · exact hv h

theorem append_char_inj {c : Char} {a b x y : JStr} (ha : c ∉ a) (hb : c ∉ b)
    (h : a ++ c :: x = b ++ c :: y) : a = b ∧ x = y := by
  have hs := congrArg (splitChar c) h
  rw [splitChar_append _ ha, splitChar_append _ hb] at hs
  injection hs with h1 _
  subst h1
  have hxy := List.append_cancel_left h
  injection hxy with _ h3
  exact ⟨rfl, h3⟩

theorem row_prefix_iff {n v : JStr} (hn : '=' ∉ n) :
    (nextLocaleName ++ ['=']).isPrefixOf (n ++ '=' :: v) = true ↔ n = nextLocaleName := by
  constructor
  · intro h
    obtain ⟨tl, htl⟩ := List.isPrefixOf_iff_prefix.mp h
    rw [List.append_assoc, List.singleton_append] at htl
    exact ((append_char_inj (by decide) hn htl).1).symm
  · rintro rfl
    refine List.isPrefixOf_iff_prefix.mpr ⟨v, ?_⟩
    rw [List.append_assoc, List.singleton_append]

theorem find_row (store : CookieStore) (hwf : wfStore store) :
    (store.map (fun p => p.1 ++ '=' :: p.2)).find?
        (fun row => (nextLocaleName ++ ['=']).isPrefixOf row)
      = (findCookie store nextLocaleName).map (fun p => p.1 ++ '=' :: p.2) := by
  induction store with
  | nil => rfl
  | cons p rest ih =>
    obtain ⟨n, v⟩ := p
    obtain ⟨hn1, hn2, hv⟩ := hwf (n, v) (List.mem_cons_self _ _)
    have hwf' : wfStore rest := fun q hq => hwf q (List.mem_cons_of_mem _ hq)
    rw [List.map_cons]
    by_cases hn : n = nextLocaleName
    · subst hn
      rw [List.find?_cons_of_pos _ ((row_prefix_iff hn2).mpr rfl)]
      have hfc : findCookie ((nextLocaleName, v) :: rest) nextLocaleName
          = some (nextLocaleName, v) := by
        rw [findCookie]
        exact List.find?_cons_of_pos _ (by simp)
      rw [hfc]
      rfl
    · rw [List.find?_cons_of_neg _ (fun h => hn ((row_prefix_iff hn2).mp h))]
      have hfc : findCookie ((n, v) :: rest) nextLocaleName = findCookie rest nextLocaleName := by
        rw [findCookie, findCookie]
        exact List.find?_cons_of_neg _ (by simp [hn])
      rw [hfc]
      exact ih hwf'

theorem getLocaleCookie_lookup (store : CookieStore) (hwf : wfStore store) :
    getLocaleCookie (some store)
      = (findCookie store nextLocaleName).map (fun p => (splitChar '=' p.2).headD []) := by
  cases store with
  | nil => rfl
  | cons p rest =>
    have hrows : ∀ r ∈ (p :: rest).map (fun q => q.1 ++ '=' :: q.2), ';' ∉ r := by
      intro r hr
      obtain ⟨q, hq, rfl⟩ := List.mem_map.mp hr
      obtain ⟨h1, -, h3⟩ := hwf q hq
      exact not_semi_mem_row h1 h3
    rw [getLocaleCookie, cookieHeader, splitSemiSpace_joinSeq (by simp) hrows,
      find_row _ hwf]
    cases hfind : findCookie (p :: rest) nextLocaleName with
    | none => rfl
    | some q =>
      obtain ⟨q1, q2⟩ := q
      have hqmem : (q1, q2) ∈ p :: rest := List.mem_of_find?_eq_some hfind
      obtain ⟨-, hq2, -⟩ := hwf (q1, q2) hqmem
      show readLocaleRow (some (q1 ++ '=' :: q2)) = some ((splitChar '=' q2).headD [])
      have hrow : (q1 ++ '=' :: q2).isEmpty = false := by
        cases q1 <;> rfl
      rw [readLocaleRow, hrow, if_neg Bool.false_ne_true, splitChar_append _ hq2]
      cases splitChar '=' q2 <;> rfl

theorem assignCookie_set (store : CookieStore) (locale : JStr)
    (h1 : ';' ∉ locale) (h2 : '=' ∉ locale) :
    assignCookie store (setCookieString locale) = upsertCookie store nextLocaleName locale := by
  have hform : setCookieString locale
      = (nextLocaleName ++ '=' :: locale) ++ ';' :: ' ' ::
          "path=/; max-age=31536000; SameSite=Lax".toList := rfl
  rw [assignCookie, hform,
    splitSemiSpace_append _ (not_semi_mem_row (by decide) h1),
    List.headD_cons, splitChar_append _ (by decide), splitChar_of_not_mem h2]
  rfl

theorem wf_upsert {store : CookieStore} (hwf : wfStore store) {n v : JStr}
    (hn1 : ';' ∉ n) (hn2 : '=' ∉ n) (hv : ';' ∉ v) :
    wfStore (upsertCookie store n v) := by
  induction store with
  | nil =>
    intro p hp
    rcases List.mem_cons.mp hp with h | h
    · subst h
      exact ⟨hn1, hn2, hv⟩
    · cases h
  | cons q rest ih =>
    obtain ⟨a, b⟩ := q
    have hwf' : wfStore rest := fun r hr => hwf r (List.mem_cons_of_mem _ hr)
    rw [upsertCookie]
    by_cases ha : a = n
    · rw [if_pos ha]
      intro p hp
      rcases List.mem_cons.mp hp with h | h
      · subst h
        exact ⟨hn1, hn2, hv⟩
      · exact hwf' p h
    · rw [if_neg ha]
      intro p hp
      rcases List.mem_cons.mp hp with h | h
      · subst h
        exact hwf (a, b) (List.mem_cons_self _ _)
      · exact ih hwf' p h

theorem findCookie_upsert (store : CookieStore) (n v : JStr) :
    findCookie (upsertCookie store n v) n = some (n, v) := by
  induction store with
  | nil =>
    show findCookie [(n, v)] n = some (n, v)
    rw [findCookie]
    exact List.find?_cons_of_pos _ (by simp)
  | cons q rest ih =>
    obtain ⟨a, b⟩ := q
    rw [upsertCookie]
    by_cases ha : a = n
    · rw [if_pos ha, findCookie]
      exact List.find?_cons_of_pos _ (by simp)
    · rw [if_neg ha, findCookie, List.find?_cons_of_neg _ (by simp [ha])]
      exact ih

/-- C7: writing the locale cookie and reading it back against the same
ambient cookie store returns the same locale, for every well-formed
store and every URL-safe-token locale; the written cookie string names
NEXT_LOCALE and carries the path, max-age and SameSite attributes. -/
theorem cookie_roundtrip_C7 (store : CookieStore) (locale : JStr)
    (hwf : wfStore store) (hsafe : urlSafeToken locale) :
    getLocaleCookie (setLocaleCookie (some store) locale) = some locale
    ∧ setCookieString locale
      = nextLocaleName ++ '=' ::
          (locale ++ "; path=/; max-age=31536000; SameSite=Lax".toList) := by
  have hsemi : ';' ∉ locale := fun hm => absurd (hsafe ';' hm) (by decide)
  have heq : '=' ∉ locale := fun hm => absurd (hsafe '=' hm) (by decide)
  constructor
  · rw [setLocaleCookie, assignCookie_set store locale hsemi heq,
      getLocaleCookie_lookup _ (wf_upsert hwf (by decide) (by decide) hsemi),
      findCookie_upsert]
    show some ((splitChar '=' locale).headD []) = some locale
    rw [splitChar_of_not_mem heq, List.headD_cons]
  · rfl

theorem cookie_roundtrip_C7_witness :
    wfStore [("theme".toList, "dark".toList)]
    ∧ urlSafeToken "fr-FR".toList
    ∧ getLocaleCookie
        (setLocaleCookie (some [("theme".toList, "dark".toList)]) "fr-FR".toList)
      = some "fr-FR".toList :=
  ⟨by decide, by decide,
    (cookie_roundtrip_C7 [("theme".toList, "dark".toList)] "fr-FR".toList
      (by decide) (by decide)).1⟩

/-- C8: with no ambient document, neither cookie helper throws;
getLocaleCookie returns the explicit null result and setLocaleCookie
performs no write, for every locale argument. -/
theorem cookie_server_noop_C8 :
    (∀ locale : JStr, setLocaleCookie none locale = none)
    ∧ getLocaleCookie none = none :=
  ⟨fun _ => rfl, rfl⟩

/-- C10: when the ambient store's first NEXT_LOCALE entry has an empty
value, getLocaleCookie returns the empty string, not the null result:
the present/absent distinction is decided by the cookie name, not by
non-emptiness of its value. -/
theorem empty_value_C10 (store : CookieStore) (hwf : wfStore store)
    (hfind : findCookie store nextLocaleName = some (nextLocaleName, [])) :
    getLocaleCookie (some store) = some [] := by
  rw [getLocaleCookie_lookup _ hwf, hfind]
  rfl

theorem empty_value_C10_witness :
    getLocaleCookie (some [(nextLocaleName, [])]) = some [] :=
  empty_value_C10 [(nextLocaleName, [])] (by decide) (by decide)

end NextjsBrand
